import Mathlib

/-!
Shallow embedding of the `db` storage engine (Rust crate under `src/db`),
covering the value model (`types.rs`), tables (`table.rs`), the database
registry with projection (`database.rs`), and snapshot persistence.

Machine-level conventions of the embedding:
* Rust `Vec` is a Lean `List`; `HashMap<String, Table>` is an association
  list with unique keys (lookup by first matching key).
* Rust operations taking `&mut self` are functions returning the new state;
  an operation that can return `Err` while leaving observable mutations
  returns the state together with the error.  A Rust panic (an `unwrap`
  or an out-of-bounds index) is the `panic` outcome, distinct from any
  `Result` error.
* `f64` is modelled by its 64-bit pattern (a `Nat`), `chrono::DateTime<Utc>`
  by an integer timestamp; the database only stores and compares these.
-/

/-- Source `DbType` from `types.rs`: the closed set of column type tags. -/
inductive DbType where
  | Int
  | Real
  | Char
  | String
  | Time
deriving DecidableEq, Repr

/-- Source `DbValue` from `types.rs`: a tagged scalar.  The `f64` payload of
`Real` is modelled by its bit pattern, the `DateTime<Utc>` payload of
`Time` by an integer timestamp. -/
inductive DbValue where
  | Int (x : Int)
  | Real (bits : Nat)
  | Char (c : Char)
  | String (s : String)
  | Time (t : Int)
deriving DecidableEq, Repr

/-- Source `DbValue::get_type` from `types.rs`. -/
def DbValue.get_type : DbValue → DbType
  | .Int _ => .Int
  | .Real _ => .Real
  | .Char _ => .Char
  | .String _ => .String
  | .Time _ => .Time

/-- Source `Row` from `types.rs`: `pub struct Row(pub Vec<DbValue>)`. -/
structure Row where
  vals : List DbValue
deriving DecidableEq, Repr

/-- Source `Row::schema` from `types.rs`: the derived schema of a row. -/
def Row.schema (r : Row) : List DbType :=
  r.vals.map DbValue.get_type

/-- Source `DbError` from `types.rs`.  `Io` and `Serde` carry diagnostic payloads
in the source that the embedding drops. -/
inductive DbError where
  | Io
  | Serde
  | IncorrectRow
  | TableIsAlreadyPresent (name : String)
  | TableIsMissing (name : String)
  | InvalidTableState (name : String)
deriving DecidableEq, Repr

/-- Outcome of a Rust method on `&mut self` returning `Result<(), DbError>`:
`ok`/`err` carry the state as it is left behind (a failed operation may
still have mutated `self` before failing), `panic` is a Rust panic. -/
inductive Res (σ : Type) where
  | ok (s : σ)
  | err (s : σ) (e : DbError)
  | panic
deriving DecidableEq, Repr

/-- Source `Table` from `table.rs`, fields in source order. -/
structure Table where
  name : String
  rows : List Row
  schema : List DbType
deriving DecidableEq, Repr

/-- Source `Table::new` from `table.rs`. -/
def Table.new (name : String) (schema : List DbType) : Table :=
  { name := name, rows := [], schema := schema }

/-- Source `Table::insert_row` from `table.rs`: append iff the row's derived
schema equals the table schema, else `IncorrectRow` with no change. -/
def Table.insert_row (t : Table) (row : Row) : Res Table :=
  if row.schema = t.schema then
    .ok { t with rows := t.rows ++ [row] }
  else
    .err t .IncorrectRow

/-- Source `Table::update_row` from `table.rs`.  The source checks the schema
first and then executes `self.rows[idx] = row`, which panics when `idx`
is out of bounds. -/
def Table.update_row (t : Table) (idx : Nat) (row : Row) : Res Table :=
  if row.schema = t.schema then
    if idx < t.rows.length then
      .ok { t with rows := t.rows.set idx row }
    else
      .panic
  else
    .err t .IncorrectRow

/-- Source `Table::remove_row` from `table.rs`: `Vec::remove(idx)` guarded by a
bounds check; out of range is a silent no-op and the method returns `()`. -/
def Table.remove_row (t : Table) (idx : Nat) : Table :=
  if t.rows.length > idx then
    { t with rows := t.rows.eraseIdx idx }
  else
    t

/-- Source `Table::validate_rows` from `table.rs`: `InvalidTableState(name)` iff
some row's derived schema differs from the table schema. -/
def Table.validate_rows (t : Table) : Except DbError Unit :=
  if t.rows.all (fun row => row.schema == t.schema) then
    .ok ()
  else
    .error (.InvalidTableState t.name)

/-- Invariant I1 of the spec: every stored row's derived schema equals the
table's schema. -/
def TableI1 (t : Table) : Prop :=
  ∀ r ∈ t.rows, r.schema = t.schema

instance (t : Table) : Decidable (TableI1 t) := by
  unfold TableI1; infer_instance

/-- Source `Database` from `database.rs`; the `HashMap<String, Table>` is an
association list with unique keys. -/
structure Database where
  name : String
  tables : List (String × Table)
deriving DecidableEq, Repr

/-- Source `HashMap::get` on the model: first entry with the given key. -/
def Database.lookup (db : Database) (name : String) : Option Table :=
  db.tables.lookup name

/-- Source `SavedDatabase::create_table` from `database.rs`: vacant entry inserts
an empty table, occupied entry fails with `TableIsAlreadyPresent`. -/
def Database.create_table (db : Database) (name : String) (schema : List DbType) :
    Res Database :=
  match db.tables.lookup name with
  | some _ => .err db (.TableIsAlreadyPresent name)
  | none => .ok { db with tables := db.tables ++ [(name, Table.new name schema)] }

/-- Source `SavedDatabase::get_table` from `database.rs`. -/
def Database.get_table (db : Database) (name : String) : Except DbError Table :=
  match db.tables.lookup name with
  | some t => .ok t
  | none => .error (.TableIsMissing name)

/-- Source `HashMap::get_mut` followed by writing the table back: replace the
value stored under `name`. -/
def Database.setTable (db : Database) (name : String) (t : Table) : Database :=
  { db with tables := db.tables.map (fun p => if p.1 = name then (p.1, t) else p) }

/-- Source `SavedDatabase::remove_table` from `database.rs`: occupied entry is
removed, vacant entry fails with `TableIsMissing`. -/
def Database.remove_table (db : Database) (name : String) : Res Database :=
  match db.tables.lookup name with
  | some _ => .ok { db with tables := db.tables.filter (fun p => p.1 ≠ name) }
  | none => .err db (.TableIsMissing name)

/-- The loop in `SavedDatabase::projection` that selects the entries of a
sequence at the positions where the mask holds `true`:
`for (index, value) in row.0.iter().enumerate() { if rows[index] { ... } }`.
`rows[index]` panics (`none`) when the sequence is longer than the mask. -/
def maskedSelect {α : Type} : List Bool → List α → Option (List α)
  | _, [] => some []
  | b :: bs, v :: vs =>
    (maskedSelect bs vs).map (fun rest => if b then v :: rest else rest)
  | [], _ :: _ => none

/-- The insertion loop at the end of `SavedDatabase::projection`:
`self.get_table_mut(new_name)?.insert_row(Row(row))?` for each projected
row.  An error mid-loop leaves the earlier insertions in place. -/
def Database.insertProjectedRows (db : Database) (name : String) :
    List (List DbValue) → Res Database
  | [] => .ok db
  | r :: rs =>
    match db.tables.lookup name with
    | none => .err db (.TableIsMissing name)
    | some t =>
      match t.insert_row (Row.mk r) with
      | .ok t' => Database.insertProjectedRows (db.setTable name t') name rs
      | .err _ e => .err db e
      | .panic => .panic

/-- The `for row in table.rows()` loop of `SavedDatabase::projection`
that builds `new_rows`, one masked selection per source row, in order. -/
def buildProjectedRows (mask : List Bool) : List Row → Option (List (List DbValue))
  | [] => some []
  | row :: rest =>
    match maskedSelect mask row.vals with
    | none => none
    | some r => (buildProjectedRows mask rest).map (fun rs => r :: rs)

/-- Source `SavedDatabase::projection` from `database.rs`, step by step: look up
the source table, check the mask length against the schema length, filter
the schema and every row by the mask, create the new table, insert every
projected row through the normal insert path. -/
def Database.projection (db : Database) (table_name : String) (rows : List Bool)
    (new_name : String) : Res Database :=
  match db.get_table table_name with
  | .error e => .err db e
  | .ok table =>
    if table.schema.length ≠ rows.length then
      .err db .IncorrectRow
    else
      match maskedSelect rows table.schema with
      | none => .panic
      | some new_schema =>
        match buildProjectedRows rows table.rows with
        | none => .panic
        | some new_rows =>
          match db.create_table new_name new_schema with
          | .err db' e => .err db' e
          | .panic => .panic
          | .ok db' => db'.insertProjectedRows new_name new_rows

/-!
Snapshot persistence (`database.rs`, `SavedDatabase::{create, save,
load_from_disk}`).  The external `bincode` serializer is modelled by an
executable byte encoding of the `Database` value in declaration-field
order, length- and tag-prefixed exactly as `bincode` is; numbers use a
variable-length base-128 code so the encoding is total and injective.
The filesystem is an association list from path to byte content, and the
fallible I/O calls of `save` are driven by an explicit environment of
failure flags.
-/

/-- Variable-length encoding of a natural number: low 7 bits per byte,
high bit set on every byte but the last. -/
def encNat (n : Nat) : List Nat :=
  if h : n < 128 then [n]
  else (128 + n % 128) :: encNat (n / 128)
decreasing_by exact Nat.div_lt_self (by omega) (by omega)

/-- Consume one `encNat`-encoded number from the front of a byte list. -/
def decNat : List Nat → Option (Nat × List Nat)
  | [] => none
  | d :: rest =>
    if d < 128 then some (d, rest)
    else (decNat rest).map (fun p => (d - 128 + 128 * p.1, p.2))

/-- Integers via the zigzag map: `x ≥ 0` to `2x`, `x < 0` to `-2x - 1`. -/
def encInt (x : Int) : List Nat :=
  if 0 ≤ x then encNat (2 * x.toNat) else encNat (2 * (-x).toNat - 1)

/-- Consume one zigzag-encoded integer. -/
def decInt (bs : List Nat) : Option (Int × List Nat) :=
  (decNat bs).map (fun p =>
    (if p.1 % 2 = 0 then (p.1 / 2 : Int) else -((p.1 + 1) / 2 : Int), p.2))

/-- A string as its character count followed by each code point. -/
def encString (s : String) : List Nat :=
  encNat s.data.length ++ s.data.flatMap (fun c => encNat c.toNat)

/-- Consume `n` encoded characters. -/
def decChars : Nat → List Nat → Option (List Char × List Nat)
  | 0, bs => some ([], bs)
  | n + 1, bs =>
    match decNat bs with
    | none => none
    | some (c, bs') =>
      (decChars n bs').map (fun p => (Char.ofNat c :: p.1, p.2))

/-- Consume one encoded string. -/
def decString (bs : List Nat) : Option (String × List Nat) :=
  match decNat bs with
  | none => none
  | some (n, bs') => (decChars n bs').map (fun p => (String.mk p.1, p.2))

/-- One tag byte per `DbType` variant, in declaration order. -/
def encDbType : DbType → List Nat
  | .Int => [0]
  | .Real => [1]
  | .Char => [2]
  | .String => [3]
  | .Time => [4]

/-- Consume one encoded `DbType`. -/
def decDbType : List Nat → Option (DbType × List Nat)
  | 0 :: rest => some (.Int, rest)
  | 1 :: rest => some (.Real, rest)
  | 2 :: rest => some (.Char, rest)
  | 3 :: rest => some (.String, rest)
  | 4 :: rest => some (.Time, rest)
  | _ => none

/-- Tag byte then payload, per `DbValue` variant in declaration order. -/
def encDbValue : DbValue → List Nat
  | .Int x => 0 :: encInt x
  | .Real bits => 1 :: encNat bits
  | .Char c => 2 :: encNat c.toNat
  | .String s => 3 :: encString s
  | .Time t => 4 :: encInt t

/-- Consume one encoded `DbValue`. -/
def decDbValue : List Nat → Option (DbValue × List Nat)
  | 0 :: rest => (decInt rest).map (fun p => (DbValue.Int p.1, p.2))
  | 1 :: rest => (decNat rest).map (fun p => (DbValue.Real p.1, p.2))
  | 2 :: rest => (decNat rest).map (fun p => (DbValue.Char (Char.ofNat p.1), p.2))
  | 3 :: rest => (decString rest).map (fun p => (DbValue.String p.1, p.2))
  | 4 :: rest => (decInt rest).map (fun p => (DbValue.Time p.1, p.2))
  | _ => none

/-- A sequence as its length followed by the encoded elements. -/
def encList {α : Type} (enc : α → List Nat) (l : List α) : List Nat :=
  encNat l.length ++ l.flatMap enc

/-- Consume `n` elements with the element decoder `dec`. -/
def decListN {α : Type} (dec : List Nat → Option (α × List Nat)) :
    Nat → List Nat → Option (List α × List Nat)
  | 0, bs => some ([], bs)
  | n + 1, bs =>
    match dec bs with
    | none => none
    | some (a, bs') => (decListN dec n bs').map (fun p => (a :: p.1, p.2))

/-- Consume one encoded sequence. -/
def decList {α : Type} (dec : List Nat → Option (α × List Nat))
    (bs : List Nat) : Option (List α × List Nat) :=
  match decNat bs with
  | none => none
  | some (n, bs') => decListN dec n bs'

/-- A `Row` is its value sequence. -/
def encRow (r : Row) : List Nat :=
  encList encDbValue r.vals

/-- Consume one encoded `Row`. -/
def decRow (bs : List Nat) : Option (Row × List Nat) :=
  (decList decDbValue bs).map (fun p => (Row.mk p.1, p.2))

/-- A `Table` in source field order: name, rows, schema. -/
def encTable (t : Table) : List Nat :=
  encString t.name ++ encList encRow t.rows ++ encList encDbType t.schema

/-- Consume one encoded `Table`. -/
def decTable (bs : List Nat) : Option (Table × List Nat) :=
  match decString bs with
  | none => none
  | some (name, bs₁) =>
    match decList decRow bs₁ with
    | none => none
    | some (rows, bs₂) =>
      (decList decDbType bs₂).map (fun p => (Table.mk name rows p.1, p.2))

/-- One registry entry: key then table. -/
def encEntry (p : String × Table) : List Nat :=
  encString p.1 ++ encTable p.2

/-- Consume one encoded registry entry. -/
def decEntry (bs : List Nat) : Option ((String × Table) × List Nat) :=
  match decString bs with
  | none => none
  | some (key, bs₁) => (decTable bs₁).map (fun p => ((key, p.1), p.2))

/-- Source `bincode::serialize(&self.db)`: name then the table registry. -/
def encodeDatabase (db : Database) : List Nat :=
  encString db.name ++ encList encEntry db.tables

/-- Source `bincode::deserialize(&content)`: trailing bytes are ignored, exactly
as `bincode::deserialize` ignores them. -/
def decodeDatabase (bs : List Nat) : Option Database :=
  match decString bs with
  | none => none
  | some (name, bs₁) => (decList decEntry bs₁).map (fun p => Database.mk name p.1)

/-- The filesystem: association list from path to byte content. -/
abbrev FileStore : Type := List (String × List Nat)

/-- Source `std::fs::read(path)`. -/
def FileStore.read (fs : FileStore) (path : String) : Option (List Nat) :=
  List.lookup path fs

/-- Source `File::create` + `write_all`: replace the content stored at `path`. -/
def FileStore.write (fs : FileStore) (path : String) (content : List Nat) :
    FileStore :=
  (path, content) :: List.filter (fun p => p.1 ≠ path) fs

/-- Failure flags for the three fallible I/O calls inside
`SavedDatabase::save`. -/
structure IoEnv where
  dir_create_fails : Bool
  file_create_fails : Bool
  write_fails : Bool
deriving DecidableEq, Repr

/-- Source `SavedDatabase` from `database.rs`: one open database bound to the
path it is persisted at. -/
structure SavedDatabase where
  db : Database
  path : String
deriving DecidableEq, Repr

/-- Outcome of an operation that touches the filesystem: `ok`/`err` carry
the filesystem as the operation leaves it, `panic` is a Rust panic. -/
inductive IoRes (α : Type) where
  | ok (a : α) (fs : FileStore)
  | err (e : DbError) (fs : FileStore)
  | panic

/-- Source `SavedDatabase::save` from `database.rs`:
`create_dir_all(prefix).unwrap()` — a failing directory creation PANICS
(the source unwraps instead of propagating `DbError::Io`); then
`File::create(path)?` and `file.write_all(&content)?` surface their
failures as `DbError::Io`; the serialization itself is total. -/
def SavedDatabase.save (sdb : SavedDatabase) (env : IoEnv) (fs : FileStore) :
    IoRes Unit :=
  if env.dir_create_fails then .panic
  else if env.file_create_fails then .err .Io fs
  else if env.write_fails then .err .Io (fs.write sdb.path [])
  else .ok () (fs.write sdb.path (encodeDatabase sdb.db))

/-- Source `SavedDatabase::create` from `database.rs`: build an empty database,
bind it to `path`, and immediately `save()?`. -/
def SavedDatabase.create (name : String) (path : String) (env : IoEnv)
    (fs : FileStore) : IoRes SavedDatabase :=
  let pinned : SavedDatabase := { db := { name := name, tables := [] }, path := path }
  match pinned.save env fs with
  | .ok () fs' => .ok pinned fs'
  | .err e fs' => .err e fs'
  | .panic => .panic

/-- The validation loop of `SavedDatabase::load_from_disk`:
`for table in db.tables.values() { table.validate_rows()? }`. -/
def validateAllTables : List (String × Table) → Except DbError Unit
  | [] => .ok ()
  | (_, t) :: rest =>
    match t.validate_rows with
    | .error e => .error e
    | .ok () => validateAllTables rest

/-- Source `SavedDatabase::load_from_disk` from `database.rs`: read the file
(`Io` on failure), deserialize (`Serde` on failure), validate every
table, and only then produce the loaded database bound to `path`. -/
def SavedDatabase.load_from_disk (path : String) (fs : FileStore) :
    IoRes SavedDatabase :=
  match fs.read path with
  | none => .err .Io fs
  | some content =>
    match decodeDatabase content with
    | none => .err .Serde fs
    | some db =>
      match validateAllTables db.tables with
      | .error e => .err e fs
      | .ok () => .ok { db := db, path := path } fs

/-!
Round-trip lemmas for the snapshot encoding: every decoder consumes
exactly what the matching encoder produced and returns the original
value, independent of the bytes that follow.
-/

theorem decNat_encNat (n : Nat) (rest : List Nat) :
    decNat (encNat n ++ rest) = some (n, rest) := by
  induction n using Nat.strong_induction_on with
  | _ n ih =>
    by_cases h : n < 128
    · rw [encNat, dif_pos h]
      simp [decNat, h]
    · rw [encNat, dif_neg h]
      have hdiv : n / 128 < n := Nat.div_lt_self (by omega) (by omega)
      have hrec := ih (n / 128) hdiv
      have hge : ¬ (128 + n % 128 < 128) := by omega
      simp only [List.cons_append, decNat, List.append_eq, if_neg hge, hrec,
        Option.map_some']
      have heq : 128 + n % 128 - 128 + 128 * (n / 128) = n := by
        have := Nat.mod_add_div n 128
        omega
      rw [heq]

theorem decInt_encInt (x : Int) (rest : List Nat) :
    decInt (encInt x ++ rest) = some (x, rest) := by
  by_cases h : 0 ≤ x
  · rw [encInt, if_pos h, decInt, decNat_encNat]
    have h2 : (2 * x.toNat) % 2 = 0 := by omega
    simp only [Option.map_some', h2, if_pos]
    have heq : ((2 * x.toNat : Nat) : Int) / 2 = x := by
      have hx : ((x.toNat : Int)) = x := Int.toNat_of_nonneg h
      push_cast
      omega
    simp only [if_pos h2, heq]
  · rw [encInt, if_neg h, decInt, decNat_encNat]
    have hx : 1 ≤ (-x).toNat := by omega
    have h2 : ¬ ((2 * (-x).toNat - 1) % 2 = 0) := by omega
    simp only [Option.map_some', if_neg h2]
    have hcast : (((2 * (-x).toNat - 1 : Nat) : Int)) = 2 * ((-x).toNat : Int) - 1 := by
      push_cast [Nat.cast_sub (show 1 ≤ 2 * (-x).toNat by omega)]
      ring
    have hxx : (((-x).toNat : Int)) = -x := Int.toNat_of_nonneg (by omega)
    have heq : -((((2 * (-x).toNat - 1 : Nat) : Int) + 1) / 2) = x := by
      rw [hcast, hxx]
      omega
    rw [heq]

theorem decChars_encChars (cs : List Char) (rest : List Nat) :
    decChars cs.length (cs.flatMap (fun c => encNat c.toNat) ++ rest)
      = some (cs, rest) := by
  induction cs with
  | nil => simp [decChars]
  | cons c cs ih =>
    simp only [List.length_cons, List.flatMap_cons, List.append_assoc, decChars,
      decNat_encNat, ih, Option.map_some', Char.ofNat_toNat]

theorem decString_encString (s : String) (rest : List Nat) :
    decString (encString s ++ rest) = some (s, rest) := by
  simp only [encString, decString, List.append_assoc, decNat_encNat,
    decChars_encChars, Option.map_some']

theorem decDbType_encDbType (t : DbType) (rest : List Nat) :
    decDbType (encDbType t ++ rest) = some (t, rest) := by
  cases t <;> rfl

theorem decDbValue_encDbValue (v : DbValue) (rest : List Nat) :
    decDbValue (encDbValue v ++ rest) = some (v, rest) := by
  cases v with
  | Int x => simp [encDbValue, decDbValue, decInt_encInt]
  | Real bits => simp [encDbValue, decDbValue, decNat_encNat]
  | Char c => simp [encDbValue, decDbValue, decNat_encNat, Char.ofNat_toNat]
  | String s => simp [encDbValue, decDbValue, decString_encString]
  | Time t => simp [encDbValue, decDbValue, decInt_encInt]

theorem decListN_encList {α : Type} (dec : List Nat → Option (α × List Nat))
    (enc : α → List Nat) (l : List α) (rest : List Nat)
    (h : ∀ a rs, dec (enc a ++ rs) = some (a, rs)) :
    decListN dec l.length (l.flatMap enc ++ rest) = some (l, rest) := by
  induction l with
  | nil => simp [decListN]
  | cons a l ih =>
    simp only [List.length_cons, List.flatMap_cons, List.append_assoc, decListN,
      h, ih, Option.map_some']

theorem decList_encList {α : Type} (dec : List Nat → Option (α × List Nat))
    (enc : α → List Nat) (l : List α) (rest : List Nat)
    (h : ∀ a rs, dec (enc a ++ rs) = some (a, rs)) :
    decList dec (encList enc l ++ rest) = some (l, rest) := by
  rw [encList, decList.eq_def, List.append_assoc, decNat_encNat]
  exact decListN_encList dec enc l rest h

theorem decRow_encRow (r : Row) (rest : List Nat) :
    decRow (encRow r ++ rest) = some (r, rest) := by
  simp only [encRow, decRow,
    decList_encList decDbValue encDbValue r.vals rest decDbValue_encDbValue,
    Option.map_some']

theorem decTable_encTable (t : Table) (rest : List Nat) :
    decTable (encTable t ++ rest) = some (t, rest) := by
  simp only [encTable, decTable.eq_def, List.append_assoc, decString_encString,
    decList_encList decRow encRow t.rows _ decRow_encRow,
    decList_encList decDbType encDbType t.schema rest decDbType_encDbType,
    Option.map_some']

theorem decEntry_encEntry (p : String × Table) (rest : List Nat) :
    decEntry (encEntry p ++ rest) = some (p, rest) := by
  simp only [encEntry, decEntry.eq_def, List.append_assoc, decString_encString,
    decTable_encTable, Option.map_some']

theorem decodeDatabase_encodeDatabase (db : Database) :
    decodeDatabase (encodeDatabase db) = some db := by
  have hlist := decList_encList decEntry encEntry db.tables [] decEntry_encEntry
  rw [List.append_nil] at hlist
  simp only [encodeDatabase, decodeDatabase.eq_def, decString_encString, hlist,
    Option.map_some']

/-!
Inversion lemmas for the table and database operations.
-/

theorem insert_row_ok_iff (t : Table) (row : Row) (t' : Table) :
    t.insert_row row = .ok t' ↔
      row.schema = t.schema ∧ t' = { t with rows := t.rows ++ [row] } := by
  unfold Table.insert_row
  split
  · next hs => simp [hs, eq_comm]
  · next hs => simp [hs]

theorem insert_row_mismatch (t : Table) (row : Row) (h : row.schema ≠ t.schema) :
    t.insert_row row = .err t .IncorrectRow := by
  simp [Table.insert_row, h]

theorem update_row_ok_iff (t : Table) (idx : Nat) (row : Row) (t' : Table) :
    t.update_row idx row = .ok t' ↔
      row.schema = t.schema ∧ idx < t.rows.length ∧
        t' = { t with rows := t.rows.set idx row } := by
  unfold Table.update_row
  split
  · next hs =>
    split
    · next hidx => simp [hs, hidx, eq_comm]
    · next hidx => simp [hs, hidx]
  · next hs => simp [hs]

theorem update_row_mismatch (t : Table) (idx : Nat) (row : Row)
    (h : row.schema ≠ t.schema) :
    t.update_row idx row = .err t .IncorrectRow := by
  simp [Table.update_row, h]

/-!
Claim theorems.
-/

/-- C1: every row stored in a table has the table's schema as its derived
schema (invariant I1); an insert or update whose row has a different
derived schema is rejected with the schema-mismatch error `IncorrectRow`
and leaves the row sequence unchanged, and no table operation (insert,
update, remove) turns an I1-satisfying table into a violating one. -/
theorem claim_C1_schema_invariant (t : Table) (row : Row) (idx : Nat) :
    (row.schema ≠ t.schema →
      t.insert_row row = .err t .IncorrectRow ∧
      t.update_row idx row = .err t .IncorrectRow) ∧
    (TableI1 t →
      (∀ t', t.insert_row row = .ok t' → TableI1 t') ∧
      (∀ t', t.update_row idx row = .ok t' → TableI1 t') ∧
      TableI1 (t.remove_row idx)) := by
  refine ⟨fun hne => ⟨insert_row_mismatch t row hne,
    update_row_mismatch t idx row hne⟩, fun h1 => ⟨?_, ?_, ?_⟩⟩
  · intro t' hok
    rw [insert_row_ok_iff] at hok
    obtain ⟨hs, rfl⟩ := hok
    intro r hr
    rcases List.mem_append.mp hr with hr | hr
    · exact h1 r hr
    · rw [List.mem_singleton.mp hr]
      exact hs
  · intro t' hok
    rw [update_row_ok_iff] at hok
    obtain ⟨hs, hidx, rfl⟩ := hok
    intro r hr
    rcases List.mem_or_eq_of_mem_set hr with hr | hr
    · exact h1 r hr
    · rw [hr]
      exact hs
  · unfold Table.remove_row
    split
    · intro r hr
      exact h1 r (List.eraseIdx_subset _ _ hr)
    · exact h1

theorem claim_C1_witness :
    (Table.mk "t" [Row.mk [.Int 1]] [.Int]).insert_row (Row.mk [.Real 0])
        = .err (Table.mk "t" [Row.mk [.Int 1]] [.Int]) .IncorrectRow ∧
      TableI1 ((Table.mk "t" [Row.mk [.Int 1]] [.Int]).remove_row 0) := by
  have h := claim_C1_schema_invariant (Table.mk "t" [Row.mk [.Int 1]] [.Int])
    (Row.mk [.Real 0]) 0
  exact ⟨(h.1 (by decide)).1, (h.2 (by decide)).2.2⟩

/-- C10: in `update_row` the schema comparison precedes any access to the
row storage, so a schema-mismatching row yields `IncorrectRow` with the
table unchanged for every index, including out-of-range ones — the call
never panics in that case. -/
theorem claim_C10_update_schema_check_first (t : Table) (idx : Nat) (row : Row)
    (h : row.schema ≠ t.schema) :
    t.update_row idx row = .err t .IncorrectRow :=
  update_row_mismatch t idx row h

theorem claim_C10_witness :
    (Table.mk "t" [] [.Int]).update_row 5 (Row.mk [.Real 0])
      = .err (Table.mk "t" [] [.Int]) .IncorrectRow :=
  claim_C10_update_schema_check_first (Table.mk "t" [] [.Int]) 5
    (Row.mk [.Real 0]) (by decide)

/-- C3: contrary to the claim, `update_row` with a schema-correct row and
an out-of-bounds index PANICS (the source runs `self.rows[idx] = row` on a
`Vec`), it does not return an `IndexOutOfRange` error — `DbError` has no
such variant at all.  Evaluated at the concrete failing input: table `t`
with schema `[Int]` and no rows, `update_row(0, Row([Int 7]))`. -/
theorem claim_C3_update_out_of_range_traps :
    (Table.mk "t" [] [.Int]).update_row 0 (Row.mk [.Int 7]) = .panic := by
  decide

/-- C8: `remove_row` with an in-bounds index removes exactly the row at
that index, shifting the later rows down one position; with an
out-of-range index it is a no-op returning success (it has no error
outcome). -/
theorem claim_C8_remove_row (t : Table) (idx : Nat) :
    (idx < t.rows.length →
      t.remove_row idx =
        { t with rows := t.rows.take idx ++ t.rows.drop (idx + 1) }) ∧
    (t.rows.length ≤ idx → t.remove_row idx = t) := by
  constructor
  · intro h
    unfold Table.remove_row
    rw [if_pos (by omega), List.eraseIdx_eq_take_drop_succ]
  · intro h
    unfold Table.remove_row
    rw [if_neg (by omega)]

theorem claim_C8_witness :
    (Table.mk "t" [Row.mk [.Int 0], Row.mk [.Int 1], Row.mk [.Int 2]] [.Int]).remove_row 1
        = Table.mk "t" [Row.mk [.Int 0], Row.mk [.Int 2]] [.Int] ∧
      (Table.mk "t" [Row.mk [.Int 0]] [.Int]).remove_row 7
        = Table.mk "t" [Row.mk [.Int 0]] [.Int] := by
  constructor
  · have h := (claim_C8_remove_row
      (Table.mk "t" [Row.mk [.Int 0], Row.mk [.Int 1], Row.mk [.Int 2]] [.Int]) 1).1
      (by decide)
    rw [h]
    decide
  · exact (claim_C8_remove_row (Table.mk "t" [Row.mk [.Int 0]] [.Int]) 7).2 (by decide)

/-- C6: `create_table` succeeds exactly when the name is free, adding an
empty table with the given schema and touching nothing else; on a taken
name it fails with `TableIsAlreadyPresent(name)` and leaves the database
(tables and their rows) unchanged. -/
theorem claim_C6_create_table (db : Database) (name : String)
    (schema : List DbType) :
    (db.tables.lookup name = none →
      db.create_table name schema =
        .ok { db with tables := db.tables ++ [(name, Table.new name schema)] } ∧
      (Table.new name schema).rows = []) ∧
    (∀ t₀, db.tables.lookup name = some t₀ →
      db.create_table name schema = .err db (.TableIsAlreadyPresent name)) := by
  constructor
  · intro h
    unfold Database.create_table
    rw [h]
    exact ⟨rfl, rfl⟩
  · intro t₀ h
    unfold Database.create_table
    rw [h]

theorem claim_C6_witness :
    (Database.mk "d" []).create_table "t" [.Int]
        = .ok (Database.mk "d" [("t", Table.new "t" [.Int])]) ∧
      (Database.mk "d" [("t", Table.new "t" [.Int])]).create_table "t" [.Real]
        = .err (Database.mk "d" [("t", Table.new "t" [.Int])])
            (.TableIsAlreadyPresent "t") := by
  constructor
  · have h := (claim_C6_create_table (Database.mk "d" []) "t" [.Int]).1 (by decide)
    exact h.1
  · exact (claim_C6_create_table (Database.mk "d" [("t", Table.new "t" [.Int])])
      "t" [.Real]).2 (Table.new "t" [.Int]) (by decide)

/-!
Projection.  `maskFilter` is the SPEC's description of the result — "the
sub-sequence at the positions where the mask is true, in original order" —
stated independently of the source's loops, to compare the implementation
against.
-/

/-- The sub-sequence of `l` at the positions where `mask` is `true`, in
original order (the spec's wording for the projected schema and rows). -/
def maskFilter {α : Type} (mask : List Bool) (l : List α) : List α :=
  (((mask.zip l).filter (fun p => p.1)).map (fun p => p.2))

theorem maskedSelect_eq_maskFilter {α : Type} :
    ∀ (mask : List Bool) (l : List α), l.length ≤ mask.length →
      maskedSelect mask l = some (maskFilter mask l)
  | _, [], _ => by simp [maskedSelect, maskFilter]
  | b :: bs, v :: vs, h => by
    have ih := maskedSelect_eq_maskFilter bs vs (by simpa using h)
    simp only [maskedSelect, ih, Option.map_some', maskFilter, List.zip_cons_cons,
      List.filter_cons]
    cases b <;> simp [maskFilter]
  | [], _ :: _, h => by simp at h

theorem maskFilter_map {α β : Type} (f : α → β) :
    ∀ (mask : List Bool) (l : List α),
      maskFilter mask (l.map f) = (maskFilter mask l).map f
  | _, [] => by simp [maskFilter]
  | b :: bs, v :: vs => by
    have ih := maskFilter_map f bs vs
    cases b
    · simpa [maskFilter] using ih
    · simpa [maskFilter] using ih
  | [], _ :: _ => by simp [maskFilter]

theorem buildProjectedRows_eq (mask : List Bool) :
    ∀ (rows : List Row), (∀ r ∈ rows, r.vals.length ≤ mask.length) →
      buildProjectedRows mask rows =
        some (rows.map (fun r => maskFilter mask r.vals))
  | [], _ => rfl
  | row :: rest, h => by
    have hr := maskedSelect_eq_maskFilter mask row.vals (h row (by simp))
    have ih := buildProjectedRows_eq mask rest (fun r hr => h r (by simp [hr]))
    simp only [buildProjectedRows, hr, ih, Option.map_some', List.map_cons]

theorem lookup_eq_none_of_keys {β : Type} (k : String) :
    ∀ (xs : List (String × β)), (∀ p ∈ xs, p.1 ≠ k) →
      List.lookup k xs = none
  | [], _ => rfl
  | (a, b) :: xs, h => by
    have hk : (k == a) = false :=
      beq_eq_false_iff_ne.mpr (fun hc => h (a, b) (by simp) hc.symm)
    simp only [List.lookup, hk]
    exact lookup_eq_none_of_keys k xs (fun q hq => h q (by simp [hq]))

theorem keys_of_lookup_eq_none {β : Type} (k : String) :
    ∀ (xs : List (String × β)), List.lookup k xs = none →
      ∀ p ∈ xs, p.1 ≠ k
  | [], _ => by simp
  | (a, b) :: xs, h => by
    cases hbeq : (k == a) with
    | true =>
      simp [List.lookup, hbeq] at h
    | false =>
      simp only [List.lookup, hbeq] at h
      intro q hq
      rcases List.mem_cons.mp hq with rfl | hq
      · intro hc
        have hka : k = a := hc.symm
        rw [hka] at hbeq
        simp at hbeq
      · exact keys_of_lookup_eq_none k xs h q hq

theorem map_setEntry_of_keys (n : String) (t' : Table) :
    ∀ (xs : List (String × Table)), (∀ p ∈ xs, p.1 ≠ n) →
      xs.map (fun p => if p.1 = n then (p.1, t') else p) = xs
  | [], _ => rfl
  | p :: xs, h => by
    have hp : p.1 ≠ n := h p (by simp)
    simp only [List.map_cons, if_neg hp]
    rw [map_setEntry_of_keys n t' xs (fun q hq => h q (by simp [hq]))]

theorem lookup_append_of_none {β : Type} (k : String) (ys : List (String × β)) :
    ∀ (xs : List (String × β)), List.lookup k xs = none →
      List.lookup k (xs ++ ys) = List.lookup k ys
  | [], _ => by simp
  | (a, b) :: xs, h => by
    cases hbeq : (k == a) with
    | true =>
      simp [List.lookup, hbeq] at h
    | false =>
      simp only [List.lookup, hbeq] at h
      rw [List.cons_append]
      simp only [List.lookup, hbeq]
      exact lookup_append_of_none k ys xs h

theorem insertProjectedRows_ok (n : String) :
    ∀ (rs : List (List DbValue)) (db : Database) (xs : List (String × Table))
      (t : Table),
      db.tables = xs ++ [(n, t)] →
      (∀ p ∈ xs, p.1 ≠ n) →
      (∀ r ∈ rs, (Row.mk r).schema = t.schema) →
      db.insertProjectedRows n rs =
        .ok { db with
          tables := xs ++ [(n, { t with rows := t.rows ++ rs.map Row.mk })] }
  | [], db, xs, t, hdb, _, _ => by
    have ht : ({ t with rows := t.rows ++ List.map Row.mk [] } : Table) = t := by
      simp
    simp only [Database.insertProjectedRows, ht, ← hdb]
  | r :: rs, db, xs, t, hdb, hkeys, hmatch => by
    have hxs : List.lookup n xs = none := lookup_eq_none_of_keys n xs hkeys
    have hlook : List.lookup n db.tables = some t := by
      rw [hdb, lookup_append_of_none n [(n, t)] xs hxs]
      simp [List.lookup]
    have hins : t.insert_row (Row.mk r) =
        .ok { t with rows := t.rows ++ [Row.mk r] } := by
      rw [insert_row_ok_iff]
      exact ⟨hmatch r (by simp), rfl⟩
    have hset : (db.setTable n { t with rows := t.rows ++ [Row.mk r] }).tables
        = xs ++ [(n, { t with rows := t.rows ++ [Row.mk r] })] := by
      unfold Database.setTable
      rw [hdb, List.map_append, map_setEntry_of_keys n _ xs hkeys]
      simp
    have ih := insertProjectedRows_ok n rs
      (db.setTable n { t with rows := t.rows ++ [Row.mk r] }) xs
      { t with rows := t.rows ++ [Row.mk r] } hset hkeys
      (fun q hq => hmatch q (by simp [hq]))
    simp only [Database.insertProjectedRows, hlook, hins]
    rw [ih]
    simp [Database.setTable, List.append_assoc]

/-- C7: on an existing source table, `projection` with a mask whose
length differs from the source schema's length fails with the
schema-mismatch error `IncorrectRow` and leaves the database — in
particular its table set — unchanged. -/
theorem claim_C7_projection_mask_mismatch (db : Database)
    (table_name new_name : String) (mask : List Bool) (table : Table)
    (hlook : db.tables.lookup table_name = some table)
    (hlen : mask.length ≠ table.schema.length) :
    db.projection table_name mask new_name = .err db .IncorrectRow := by
  simp only [Database.projection, Database.get_table, hlook]
  rw [if_pos (by omega)]

theorem claim_C7_witness :
    (Database.mk "db" [("table", Table.mk "table"
        [Row.mk [.String "B", .Time 0]] [.String, .Time])]).projection
        "table" [true] "P2"
      = .err (Database.mk "db" [("table", Table.mk "table"
          [Row.mk [.String "B", .Time 0]] [.String, .Time])]) .IncorrectRow :=
  claim_C7_projection_mask_mismatch
    (Database.mk "db" [("table", Table.mk "table"
        [Row.mk [.String "B", .Time 0]] [.String, .Time])])
    "table" "P2" [true]
    (Table.mk "table" [Row.mk [.String "B", .Time 0]] [.String, .Time])
    (by decide) (by decide)

/-- C2: on an existing source table satisfying I1, with the mask exactly
as long as the source schema and the target name free, `projection`
succeeds and adds one table whose schema is the sub-sequence of the
source schema at the mask's true positions and whose rows are, in source
order, the sub-sequences of the source rows at those same positions
(`maskFilter` states the spec's sub-sequence wording). -/
theorem claim_C2_projection (db : Database) (table_name new_name : String)
    (mask : List Bool) (table : Table)
    (hlook : db.tables.lookup table_name = some table)
    (hI1 : TableI1 table)
    (hlen : mask.length = table.schema.length)
    (hfree : db.tables.lookup new_name = none) :
    db.projection table_name mask new_name =
      .ok { db with tables := db.tables ++
        [(new_name, Table.mk new_name
            (table.rows.map (fun r => Row.mk (maskFilter mask r.vals)))
            (maskFilter mask table.schema))] } := by
  have hsch : maskedSelect mask table.schema
      = some (maskFilter mask table.schema) :=
    maskedSelect_eq_maskFilter mask table.schema (by omega)
  have hrowlen : ∀ r ∈ table.rows, r.vals.length ≤ mask.length := by
    intro r hr
    have hs := congrArg List.length (hI1 r hr)
    simp only [Row.schema, List.length_map] at hs
    omega
  have hbuild := buildProjectedRows_eq mask table.rows hrowlen
  have hcreate : db.create_table new_name (maskFilter mask table.schema) =
      .ok { db with tables := db.tables ++
        [(new_name, Table.new new_name (maskFilter mask table.schema))] } := by
    unfold Database.create_table
    rw [hfree]
  have hkeys := keys_of_lookup_eq_none new_name db.tables hfree
  have hmatch : ∀ r ∈ table.rows.map (fun r => maskFilter mask r.vals),
      (Row.mk r).schema = (Table.new new_name (maskFilter mask table.schema)).schema := by
    intro r hr
    rcases List.mem_map.mp hr with ⟨row, hrow, rfl⟩
    show (maskFilter mask row.vals).map DbValue.get_type
      = maskFilter mask table.schema
    rw [← maskFilter_map, ← hI1 row hrow]
    rfl
  have hins := insertProjectedRows_ok new_name
    (table.rows.map (fun r => maskFilter mask r.vals))
    { db with tables := db.tables ++
      [(new_name, Table.new new_name (maskFilter mask table.schema))] }
    db.tables (Table.new new_name (maskFilter mask table.schema)) rfl hkeys hmatch
  simp only [Database.projection, Database.get_table, hlook]
  rw [if_neg (by omega)]
  simp only [hsch, hbuild, hcreate]
  rw [hins]
  simp [Table.new, List.map_map, Function.comp]

theorem claim_C2_witness :
    (Database.mk "db" [("table", Table.mk "table"
        [Row.mk [.String "B", .Time 0], Row.mk [.String "C", .Time 1]]
        [.String, .Time])]).projection "table" [true, false] "projection"
      = .ok (Database.mk "db"
          [("table", Table.mk "table"
              [Row.mk [.String "B", .Time 0], Row.mk [.String "C", .Time 1]]
              [.String, .Time]),
           ("projection", Table.mk "projection"
              [Row.mk [.String "B"], Row.mk [.String "C"]] [.String])]) := by
  have h := claim_C2_projection
    (Database.mk "db" [("table", Table.mk "table"
        [Row.mk [.String "B", .Time 0], Row.mk [.String "C", .Time 1]]
        [.String, .Time])])
    "table" "projection" [true, false]
    (Table.mk "table"
        [Row.mk [.String "B", .Time 0], Row.mk [.String "C", .Time 1]]
        [.String, .Time])
    (by decide) (by decide) (by decide) (by decide)
  rw [h]
  decide

/-!
Persistence claims.
-/

/-- C4: with the I/O succeeding, saving a database whose tables all
validate and then opening the written file yields the identical
`SavedDatabase` — same name, same table registry, same schemas, same rows
in the same order (structural equality of the model is deep equality). -/
theorem claim_C4_save_open_roundtrip (sdb : SavedDatabase) (fs : FileStore)
    (hval : validateAllTables sdb.db.tables = .ok ()) :
    ∃ fs', sdb.save ⟨false, false, false⟩ fs = .ok () fs' ∧
      SavedDatabase.load_from_disk sdb.path fs' = .ok sdb fs' := by
  refine ⟨fs.write sdb.path (encodeDatabase sdb.db), rfl, ?_⟩
  have hread : (fs.write sdb.path (encodeDatabase sdb.db)).read sdb.path
      = some (encodeDatabase sdb.db) := by
    simp [FileStore.read, FileStore.write, List.lookup]
  simp only [SavedDatabase.load_from_disk, hread,
    decodeDatabase_encodeDatabase, hval]

theorem claim_C4_witness :
    validateAllTables (Database.mk "db"
        [("t", Table.mk "t" [Row.mk [.Int 1]] [.Int])]).tables = .ok () ∧
      ∃ fs', (SavedDatabase.mk (Database.mk "db"
          [("t", Table.mk "t" [Row.mk [.Int 1]] [.Int])]) "p").save
            ⟨false, false, false⟩ [] = .ok () fs' ∧
        SavedDatabase.load_from_disk "p" fs'
          = .ok (SavedDatabase.mk (Database.mk "db"
              [("t", Table.mk "t" [Row.mk [.Int 1]] [.Int])]) "p") fs' :=
  ⟨rfl, claim_C4_save_open_roundtrip
    (SavedDatabase.mk (Database.mk "db"
        [("t", Table.mk "t" [Row.mk [.Int 1]] [.Int])]) "p") [] rfl⟩

theorem validate_rows_error (t : Table) (h : t.validate_rows ≠ .ok ()) :
    t.validate_rows = .error (.InvalidTableState t.name) := by
  unfold Table.validate_rows at h ⊢
  split
  · next hc => rw [if_pos hc] at h; exact absurd rfl h
  · rfl

theorem validateAllTables_error :
    ∀ (ts : List (String × Table)),
      (∃ p ∈ ts, p.2.validate_rows ≠ Except.ok ()) →
      ∃ bad : Table, (∃ p ∈ ts, p.2 = bad) ∧
        bad.validate_rows = .error (.InvalidTableState bad.name) ∧
        validateAllTables ts = .error (.InvalidTableState bad.name)
  | [], h => by simp at h
  | (k, t) :: ts, h => by
    by_cases ht : t.validate_rows = Except.ok ()
    · have htail : ∃ p ∈ ts, p.2.validate_rows ≠ Except.ok () := by
        rcases h with ⟨p, hp, hne⟩
        rcases List.mem_cons.mp hp with rfl | hp
        · exact absurd ht hne
        · exact ⟨p, hp, hne⟩
      rcases validateAllTables_error ts htail with ⟨bad, ⟨p, hp, hpb⟩, hbe, hval⟩
      refine ⟨bad, ⟨p, List.mem_cons_of_mem _ hp, hpb⟩, hbe, ?_⟩
      simp only [validateAllTables, ht, hval]
    · have hte := validate_rows_error t ht
      refine ⟨t, ⟨(k, t), by simp, rfl⟩, hte, ?_⟩
      simp only [validateAllTables, hte]

/-- C5: opening a file whose stored registry contains a table whose rows
do not match that table's stored schema fails with `InvalidTableState`
naming an offending table; no `SavedDatabase` is produced (the error
outcome carries none) and the filesystem is untouched, so whatever was
open before stays in effect. -/
theorem claim_C5_corrupt_load (path : String) (fs : FileStore)
    (content : List Nat) (db : Database)
    (hread : fs.read path = some content)
    (hdec : decodeDatabase content = some db)
    (hbad : ∃ p ∈ db.tables, p.2.validate_rows ≠ Except.ok ()) :
    ∃ bad : Table, (∃ p ∈ db.tables, p.2 = bad) ∧
      bad.validate_rows = .error (.InvalidTableState bad.name) ∧
      SavedDatabase.load_from_disk path fs
        = .err (.InvalidTableState bad.name) fs := by
  rcases validateAllTables_error db.tables hbad with ⟨bad, hmem, hbe, hval⟩
  refine ⟨bad, hmem, hbe, ?_⟩
  simp only [SavedDatabase.load_from_disk, hread, hdec, hval]

theorem claim_C5_witness :
    ∃ bad : Table,
      (∃ p ∈ (Database.mk "db" [("t", Table.mk "t" [Row.mk []] [.Int])]).tables,
        p.2 = bad) ∧
      bad.validate_rows = .error (.InvalidTableState bad.name) ∧
      SavedDatabase.load_from_disk "p"
          [("p", encodeDatabase (Database.mk "db"
              [("t", Table.mk "t" [Row.mk []] [.Int])]))]
        = .err (.InvalidTableState bad.name)
            [("p", encodeDatabase (Database.mk "db"
                [("t", Table.mk "t" [Row.mk []] [.Int])]))] := by
  refine claim_C5_corrupt_load "p" _ _
    (Database.mk "db" [("t", Table.mk "t" [Row.mk []] [.Int])]) rfl
    (decodeDatabase_encodeDatabase _) ?_
  refine ⟨("t", Table.mk "t" [Row.mk []] [.Int]), by simp, ?_⟩
  intro hc
  rw [show (Table.mk "t" [Row.mk []] [.Int]).validate_rows
    = Except.error (.InvalidTableState "t") from rfl] at hc
  exact Except.noConfusion hc

/-- C9 counterexample: with directory creation failing, `create` PANICS
(the source calls `create_dir_all(prefix).unwrap()`), so it does not
produce an `Io` error result — refuting the claim that a failing
directory creation surfaces as `IoError`. -/
theorem claim_C9_counterexample :
    SavedDatabase.create "db" "dir/db" ⟨true, false, false⟩ [] = .panic ∧
    ¬ ∃ fs', SavedDatabase.create "db" "dir/db" ⟨true, false, false⟩ []
        = .err .Io fs' := by
  refine ⟨rfl, ?_⟩
  rintro ⟨fs', hc⟩
  rw [show SavedDatabase.create "db" "dir/db" ⟨true, false, false⟩ [] = .panic
    from rfl] at hc
  exact IoRes.noConfusion hc

/-- C9 amended: `create` builds an empty database bound to `path` and
immediately saves it; a failing file create or file write surfaces as an
`Io` error result, but a failing directory creation panics (the source
unwraps it) instead of returning `IoError`. -/
theorem claim_C9_create_io (name path : String) (env : IoEnv) (fs : FileStore) :
    (env.dir_create_fails = true →
      SavedDatabase.create name path env fs = .panic) ∧
    (env.dir_create_fails = false → env.file_create_fails = true →
      SavedDatabase.create name path env fs = .err .Io fs) ∧
    (env.dir_create_fails = false → env.file_create_fails = false →
      env.write_fails = true →
      SavedDatabase.create name path env fs = .err .Io (fs.write path [])) ∧
    (env.dir_create_fails = false → env.file_create_fails = false →
      env.write_fails = false →
      SavedDatabase.create name path env fs =
        .ok (SavedDatabase.mk (Database.mk name []) path)
          (fs.write path (encodeDatabase (Database.mk name [])))) := by
  obtain ⟨d, f, w⟩ := env
  refine ⟨fun h1 => ?_, fun h1 h2 => ?_, fun h1 h2 h3 => ?_, fun h1 h2 h3 => ?_⟩
  all_goals subst_vars
  all_goals rfl

theorem claim_C9_witness :
    SavedDatabase.create "db" "p" ⟨false, true, false⟩ [] = .err .Io [] :=
  (claim_C9_create_io "db" "p" ⟨false, true, false⟩ []).2.1 rfl rfl
